import Mathlib

/-!
Shallow embedding of `src/convex_hull_cluster.py` (label-aware convex-hull
clustering).

Representation choices, used consistently below:

* Python floats are represented by `ℚ` (the inputs of interest are finite
  decimal coordinates, and all arithmetic performed by the program on the
  values we reason about is field arithmetic plus comparisons).
* `numpy.linalg.slogdet` returns a pair `(sign, log|det|)`.  The log-magnitude
  is represented here by the magnitude `|det|` itself: `x ↦ log x` is a
  strictly monotone bijection from `[0, ∞)` onto `[-∞, ∞)` (with
  `log 0 = -inf`, exactly numpy's convention), so every comparison (`<`, `=`)
  the program performs on log-magnitudes is faithfully mirrored on the
  magnitudes, and `e ** logvolume` (used by `calculate_volume`) is the
  magnitude itself.
* `numpy.isclose(logvolume, 0)` is abstracted as a parameter
  `iscl : ℚ → Bool` applied to the represented magnitude (the tolerance
  constant of the float predicate has no exact rational description; all
  theorems below hold for every choice of `iscl`).
* Python exceptions are modelled with `Except PyErr`; the loop of
  `clustering` gets a fuel parameter (the source loop has no a-priori bound).
* A Python `tuple`/`list` of vertices is a `List (Coord d)`; a `Point` dict
  is an `LPoint d`; a label is `ℤ`.
-/

namespace ConvexHullCluster

/-- Python exception kinds raised by the translated code.  `nonTermination` is
the fuel-exhaustion marker for the one loop (`clustering`) whose iteration
count is not bounded syntactically. -/
inductive PyErr
  | indexError
  | typeError
  | valueError
  | linAlgError
  | nonTermination
deriving DecidableEq

/-- `Point['coordinate']`: a `d`-tuple of reals. -/
abbrev Coord (d : ℕ) := Fin d → ℚ

/-- A `Point` dict: `{'coordinate': (float, ...), 'label': int}`. -/
structure LPoint (d : ℕ) where
  coordinate : Coord d
  label : ℤ
deriving DecidableEq

/-- Sign of a rational number, as `numpy.linalg.slogdet` reports the sign of
the determinant (`1`, `0` or `-1` for real matrices). -/
def qsign (q : ℚ) : ℤ :=
  if 0 < q then 1 else if q < 0 then -1 else 0

/-- `form_face(edge, pivot)`: `tuple(list(edge) + [pivot])`. -/
def form_face {d : ℕ} (edge : List (Coord d)) (pivot : Coord d) : List (Coord d) :=
  edge ++ [pivot]

/-- Default coordinate used only to totalise list indexing that is guarded by
a length check. -/
def zeroCoord (d : ℕ) : Coord d := fun _ => 0

/-- `signed_volume(vertices)`:
`reference = vertices[0]` (raises `IndexError` on an empty list), then
`slogdet` of the matrix whose rows are `vertices[1:] - reference`.
`slogdet` demands a square matrix, i.e. exactly `d + 1` vertices in dimension
`d`; otherwise it raises `LinAlgError`.  (The row lookup `rest.getD` is
guarded by the length test, so the default is never used.) -/
def signed_volume {d : ℕ} (vertices : List (Coord d)) : Except PyErr (ℤ × ℚ) :=
  match vertices with
  | [] => .error .indexError
  | v0 :: rest =>
    if rest.length = d then
      let M : Matrix (Fin d) (Fin d) ℚ :=
        Matrix.of fun i j => rest.getD i (zeroCoord d) j - v0 j
      .ok (qsign M.det, |M.det|)
    else .error .linAlgError

/-- `squared_area(vertices)`:
`reference = vertices[0]` (raises `IndexError` on an empty list), rows
`M = vertices[1:] - reference`, result `slogdet(M.T * M)[1]`.  `M.T * M` is
`d × d` for any number of rows, so no cardinality check happens here.
Special case: for a single vertex `numpy.matrix([])` has shape `(1, 0)`, so
`M.T * M` is the empty `0 × 0` matrix with determinant `1` (magnitude `1`,
i.e. float log `0.0`). -/
def squared_area {d : ℕ} (vertices : List (Coord d)) : Except PyErr ℚ :=
  match vertices with
  | [] => .error .indexError
  | [_] => .ok 1
  | v0 :: rest =>
    let M : Matrix (Fin rest.length) (Fin d) ℚ :=
      Matrix.of fun i j => rest.get i j - v0 j
    .ok (|(Matrix.transpose M * M).det|)

/-- Python `edge or face[:-1]` (an empty tuple is falsy). -/
def pyOrList {α : Type} (x : Option (List α)) (dflt : List α) : List α :=
  match x with
  | none => dflt
  | some l => if l.isEmpty then dflt else l

/-- Python `area or squared_area(face)`.  The float `0.0` is falsy; in the
magnitude representation the float log-value `0.0` is the magnitude `1`. -/
def pyOrArea (x : Option ℚ) (dflt : Except PyErr ℚ) : Except PyErr ℚ :=
  match x with
  | none => dflt
  | some a => if a = 1 then dflt else .ok a

/-- `check_inside(face, pivot, edge, area)` (lines 138-170): defaults the
`edge`/`area` arguments with Python `or`, computes
`(sign, logvolume) = signed_volume(form_face(face, pivot))`, the candidate
facet `_face = form_face(edge, pivot)` and its `_area`, and returns
`(False, _face, _area)` when
`(numpy.isclose([logvolume], [0]) and _area > area) or sign < 0`,
else `(True, _face, _area)`. -/
def check_inside (iscl : ℚ → Bool) {d : ℕ} (face : List (Coord d)) (pivot : Coord d)
    (edge : Option (List (Coord d))) (area : Option ℚ) :
    Except PyErr (Bool × List (Coord d) × ℚ) :=
  let ed := pyOrList edge face.dropLast
  match pyOrArea area (squared_area face) with
  | .error e => .error e
  | .ok ar =>
    match signed_volume (form_face face pivot) with
    | .error e => .error e
    | .ok (sign, logvolume) =>
      let fface := form_face ed pivot
      match squared_area fface with
      | .error e => .error e
      | .ok farea =>
        if (iscl logvolume && decide (ar < farea)) || decide (sign < 0) then
          .ok (false, fface, farea)
        else
          .ok (true, fface, farea)

/-- Python truthiness of the 3-tuple returned by `check_inside`: a non-empty
tuple is always truthy, whatever its components. -/
def pyTruthy {d : ℕ} (_t : Bool × List (Coord d) × ℚ) : Bool := true

/-- `check_inside_hull(hull, pivot)` (lines 173-184):
`for face in hull: if not check_inside(face=face, pivot=pivot): return False`
— the test applies `not` to the returned 3-tuple (see `pyTruthy`), not to its
boolean component. -/
def check_inside_hull (iscl : ℚ → Bool) {d : ℕ} :
    List (List (Coord d)) → Coord d → Except PyErr Bool
  | [], _ => .ok true
  | face :: hull, pivot =>
    match check_inside iscl face pivot none none with
    | .error e => .error e
    | .ok r =>
      if pyTruthy r then check_inside_hull iscl hull pivot else .ok false

/-- The verdicts the gift-wrapping driver sends back into `pivot_on_edge`
(the source compares against the strings `'homogeneous'`, `'hetrogeneous'`,
`'opposite inside'`, `'opposite outside'`; the source's spelling of
heterogeneous is kept). -/
inductive Verdict
  | homogeneous
  | hetrogeneous
  | oppositeInside
  | oppositeOutside
deriving DecidableEq

/-- One of the dicts `homo` / `opp` / `current` of `pivot_on_edge`:
`{'pivot': ..., 'face': ..., 'area': ...}`. -/
structure Incumbent (d : ℕ) where
  pivot : Coord d
  face : List (Coord d)
  area : ℚ
deriving DecidableEq

/-- The suspension state of the `pivot_on_edge` generator: the two incumbent
dicts, the `found` flag, the index `k` of the next verdict to be received,
and the list of candidate pivots yielded so far. -/
structure POEState (d : ℕ) where
  homo : Incumbent d
  opp : Incumbent d
  found : Bool
  k : ℕ
  yields : List (Coord d)
deriving DecidableEq

/-- Turn a Python lookup that may fall off the end of a sequence into the
exception it raises. -/
def ofOpt {α : Type} (e : PyErr) : Option α → Except PyErr α
  | none => .error e
  | some a => .ok a

/-- The body of the `for point in dataset` loop of `pivot_on_edge`
(lines 226-244): compute `check_inside` against the incumbent `homo` facet,
invert the flag for same-label points, and if an update is warranted yield
the candidate and dispatch on the verdict `vs st.k` received from the
driver. -/
def poe_step (iscl : ℚ → Bool) {d : ℕ} (edge : List (Coord d)) (label : ℤ)
    (vs : ℕ → Verdict) (st : POEState d) (p : LPoint d) :
    Except PyErr (POEState d) :=
  match check_inside iscl st.homo.face p.coordinate (some edge) (some st.homo.area) with
  | .error e => .error e
  | .ok (upd, cface, carea) =>
    let updated := if p.label == label then !upd else upd
    if updated then
      let ys := st.yields ++ [p.coordinate]
      match vs st.k with
      | .homogeneous =>
        .ok { st with homo := ⟨p.coordinate, cface, carea⟩, found := true,
                      k := st.k + 1, yields := ys }
      | .oppositeInside =>
        .ok { st with opp := ⟨p.coordinate, cface, carea⟩,
                      k := st.k + 1, yields := ys }
      | _ => .ok { st with k := st.k + 1, yields := ys }
    else .ok st

/-- The `for point in dataset` loop of `pivot_on_edge`. -/
def poe_loop (iscl : ℚ → Bool) {d : ℕ} (edge : List (Coord d)) (label : ℤ)
    (vs : ℕ → Verdict) : List (LPoint d) → POEState d → Except PyErr (POEState d)
  | [], st => .ok st
  | p :: rest, st =>
    match poe_step iscl edge label vs st p with
    | .error e => .error e
    | .ok st' => poe_loop iscl edge label vs rest st'

/-- `pivot_on_edge(dataset, edge, label)` (lines 187-246), as a function of
the stream `vs` of verdicts the driver sends in (`vs n` answers the `n`-th
yield).  Behaviour of the source:

* first `while` loop: scan to the first point whose label equals `label`;
  `dataset[index]` raises `IndexError` if there is none;
* build `homo` from that point (`form_face(edge, pivot)`, `squared_area`);
* second `while` loop: scan on from there while the label still equals
  `label`; `dataset[index]` raises `IndexError` if the scan falls off the
  end, i.e. if no point with a different label occurs at or after the first
  `label`-point; otherwise build `opp` from the point found;
* `found = (first verdict == 'homogeneous')` for the initial yield of
  `homo['pivot']`;
* the `for` loop over the dataset (see `poe_step`);
* final `yield (homo['pivot'], found)` — the returned value exposes the
  yielded candidates and that final pair; `opp` is never communicated. -/
def pivot_on_edge (iscl : ℚ → Bool) {d : ℕ} (dataset : List (LPoint d))
    (edge : List (Coord d)) (label : ℤ) (vs : ℕ → Verdict) :
    Except PyErr (List (Coord d) × Coord d × Bool) :=
  match ofOpt .indexError (dataset.find? fun p => p.label == label) with
  | .error e => .error e
  | .ok homoPoint =>
    let homoFace := form_face edge homoPoint.coordinate
    match squared_area homoFace with
    | .error e => .error e
    | .ok homoArea =>
      match ofOpt .indexError
          (((dataset.dropWhile fun p => !(p.label == label)).dropWhile
            fun p => p.label == label).head?) with
      | .error e => .error e
      | .ok oppPoint =>
        let oppFace := form_face edge oppPoint.coordinate
        match squared_area oppFace with
        | .error e => .error e
        | .ok oppArea =>
          let found := vs 0 == Verdict.homogeneous
          let st0 : POEState d :=
            ⟨⟨homoPoint.coordinate, homoFace, homoArea⟩,
             ⟨oppPoint.coordinate, oppFace, oppArea⟩,
             found, 1, [homoPoint.coordinate]⟩
          match poe_loop iscl edge label vs dataset st0 with
          | .error e => .error e
          | .ok st => .ok (st.yields, st.homo.pivot, st.found)

/-- `qsort_partition(data, target)` (lines 261-318), with the source's
defaults `lhs=0`, `rhs=None`:

* `rhs = len(data) - 1`;
* `label = data[0]['label']` (raises `IndexError` on an empty list);
* `_data` collects the coordinates of the points of `data[0:rhs]` whose
  label equals `label` — note the slice stops one short of the end, so
  `_data` has at most `len(data) - 1` elements; then `data = _data`;
* `position = -1`; if `position == target` the `while` loop is skipped and
  the function returns `(label, data[:position].sort())`, where Python's
  in-place `list.sort()` returns `None`;
* if `target > -1` the first loop iteration takes the `position < target`
  branch (`lhs = 0`, `rhs` keeps `len(data) - 1`) and evaluates
  `pivot = data[rhs]`.  Since `len(data) <= rhs` after the filtering, this
  lookup is out of range for every input and raises `IndexError`.  (Were it
  in range, the later statement `data[pivot], data[index] = ...` would raise
  `TypeError`: a list cannot be indexed by a coordinate tuple.)
* if `target <= -2` the first iteration takes the `position > target`
  branch instead, setting `rhs = position - 1 = -2`, and `pivot = data[-2]`
  is a negative index into the filtered list: it succeeds exactly when at
  least two coordinates survived the filter — `range(lhs, -2)` is then
  empty and `data[pivot], data[index] = ...` raises `TypeError` (a list
  cannot be indexed by a coordinate tuple) — and raises `IndexError`
  otherwise. -/
def qsort_partition {d : ℕ} (data : List (LPoint d)) (target : ℤ) :
    Except PyErr (ℤ × Option (List (Coord d))) :=
  match data with
  | [] => .error .indexError
  | p0 :: _ =>
    let fdata := ((data.take (data.length - 1)).filter
      fun e => e.label == p0.label).map (fun e => e.coordinate)
    if (-1 : ℤ) == target then
      .ok (p0.label, none)
    else if (-1 : ℤ) < target then
      match fdata.get? (data.length - 1) with
      | none => .error .indexError
      | some _ => .error .typeError
    else
      if 2 ≤ fdata.length then .error .typeError else .error .indexError

/-- `initialize_hull(dataset)` (lines 321-333): `dimension` is the length of
the first coordinate tuple (here `d` by typing),
`label, edge = qsort_partition(dataset, target=dimension - 1)`, and the
result is `(label, tuple(edge))`; `tuple(None)` would raise `TypeError`. -/
def initialize_hull {d : ℕ} (dataset : List (LPoint d)) :
    Except PyErr (ℤ × List (Coord d)) :=
  match dataset with
  | [] => .error .indexError
  | _ :: _ =>
    match qsort_partition dataset ((d : ℤ) - 1) with
    | .error e => .error e
    | .ok (_, none) => .error .typeError
    | .ok (label, some edge) => .ok (label, edge)

/-- `queuing_face(face, _queue)` (lines 336-349): the `len(face)` ridges
obtained by deleting one vertex, in order. -/
def queuing_face {d : ℕ} (face : List (Coord d)) : List (List (Coord d)) :=
  (List.range face.length).map fun i => face.eraseIdx i

/-- The guard of the driver loop `while _queue.not_empty:` (line 405).
`queue.Queue.not_empty` is a `threading.Condition` object, which is truthy
regardless of whether the queue holds any item, so the guard does not depend
on the queue contents at all. -/
def queue_not_empty {d : ℕ} (_q : List (List (Coord d))) : Bool := true

/-- The result dict of `gift_wrapping`: `{"faces": hull, "vertices": used_pivots}`. -/
structure GWResult (d : ℕ) where
  faces : List (List (Coord d))
  vertices : List (Coord d)

/-- `gift_wrapping(dataset)` (lines 377-446).  The function first runs
`initialize_hull` (whose exceptions propagate).  Were a seed obtained, the
seed ridges would be enqueued and the driver loop entered: its guard
`while _queue.not_empty` is always truthy (see `queue_not_empty`), and the
first statement of the loop body after popping an edge is
`processed.get(edge, d=False)` — CPython's `dict.get` accepts no keyword
argument, so the first iteration raises `TypeError` unconditionally.  The
rest of the loop body (pivot negotiation, backtracking) is unreachable, as
in fact is this whole continuation, since `initialize_hull` always raises. -/
def gift_wrapping (_iscl : ℚ → Bool) {d : ℕ} (dataset : List (LPoint d)) :
    Except PyErr (GWResult d) :=
  match initialize_hull dataset with
  | .error e => .error e
  | .ok _ => .error .typeError

/-- `check_homogeneity(dataset, hull, label, used_pivots)` (lines 352-374). -/
def check_homogeneity (iscl : ℚ → Bool) {d : ℕ} :
    List (LPoint d) → List (List (Coord d)) → ℤ → List (Coord d) →
    Except PyErr Bool
  | [], _, _, _ => .ok true
  | p :: rest, hull, label, used =>
    if p.coordinate ∈ used ∨ p.label = label then
      check_homogeneity iscl rest hull label used
    else
      match check_inside_hull iscl hull p.coordinate with
      | .error e => .error e
      | .ok r =>
        if r then .ok false else check_homogeneity iscl rest hull label used

/-- The summation loop of `calculate_volume`: `volume += e ** logvolume`,
and `e ** log m = m` in the magnitude representation (`e ** -inf = 0.0`). -/
def calculate_volume_go {d : ℕ} (origin : Coord d) :
    List (List (Coord d)) → ℚ → Except PyErr ℚ
  | [], acc => .ok acc
  | face :: rest, acc =>
    match signed_volume (form_face face origin) with
    | .error e => .error e
    | .ok (_, m) => calculate_volume_go origin rest (acc + m)

/-- `calculate_volume(hull)` (lines 449-462): `origin = hull[0][0]` (two
`IndexError` opportunities), then the summation loop. -/
def calculate_volume {d : ℕ} (hull : List (List (Coord d))) : Except PyErr ℚ :=
  match hull with
  | [] => .error .indexError
  | [] :: _ => .error .indexError
  | (origin :: _) :: _ => calculate_volume_go origin hull 0

/-- The partition pass of the `clustering` loop body (lines 497-504):

    for point in dataset:
        vertex = point['coordinate']
        if vertex in used_vertices:
            vertices.append(vertex)
        else:
            _dataset.append(point)
            if check_inside_hull(hull, vertex):
                points.append(vertex)

Returns `(vertices, points, _dataset)`.  Note the source appends a non-vertex
point to `_dataset` unconditionally — also when it is simultaneously appended
to `points`. -/
def partition_step (iscl : ℚ → Bool) {d : ℕ} (hull : List (List (Coord d)))
    (used_vertices : List (Coord d)) :
    List (LPoint d) →
    Except PyErr (List (Coord d) × List (Coord d) × List (LPoint d))
  | [] => .ok ([], [], [])
  | p :: rest =>
    if p.coordinate ∈ used_vertices then
      match partition_step iscl hull used_vertices rest with
      | .error e => .error e
      | .ok (vs, ps, ds) => .ok (p.coordinate :: vs, ps, ds)
    else
      match check_inside_hull iscl hull p.coordinate with
      | .error e => .error e
      | .ok r =>
        match partition_step iscl hull used_vertices rest with
        | .error e => .error e
        | .ok (vs, ps, ds) =>
          if r then .ok (vs, p.coordinate :: ps, p :: ds)
          else .ok (vs, ps, p :: ds)

/-- An emitted cluster record. -/
structure Cluster (d : ℕ) where
  vertices : List (Coord d)
  points : List (Coord d)
  size : ℕ
  volume : ℚ
deriving DecidableEq

/-- The `while dataset:` loop of `clustering` (lines 487-513), with fuel for
the unbounded iteration: build a hull by `gift_wrapping`, partition the
working dataset (see `partition_step`), compute the volume, emit the record
and continue on `_dataset`. -/
def clustering_go (iscl : ℚ → Bool) {d : ℕ} :
    ℕ → List (LPoint d) → Except PyErr (List (Cluster d))
  | _, [] => .ok []
  | 0, _ :: _ => .error .nonTermination
  | fuel + 1, dataset =>
    match gift_wrapping iscl dataset with
    | .error e => .error e
    | .ok gw =>
      match partition_step iscl gw.faces gw.vertices dataset with
      | .error e => .error e
      | .ok (vs, ps, rest) =>
        match calculate_volume gw.faces with
        | .error e => .error e
        | .ok vol =>
          match clustering_go iscl fuel rest with
          | .error e => .error e
          | .ok clusters => .ok (⟨vs, ps, vs.length + ps.length, vol⟩ :: clusters)

/-- `clustering(dataset)` (lines 465-513). -/
def clustering (iscl : ℚ → Bool) {d : ℕ} (fuel : ℕ)
    (dataset : List (LPoint d)) : Except PyErr (List (Cluster d)) :=
  clustering_go iscl fuel dataset

/-- Two driver verdicts that agree up to exchanging `'opposite inside'` and
`'opposite outside'`. -/
def verdict_equiv (v w : Verdict) : Prop :=
  v = w ∨ (v = .oppositeInside ∧ w = .oppositeOutside) ∨
    (v = .oppositeOutside ∧ w = .oppositeInside)

/-- Equality of `pivot_on_edge` states on everything the generator ever
communicates (the `opp` incumbent is internal). -/
def obsEq {d : ℕ} (s t : POEState d) : Prop :=
  s.homo = t.homo ∧ s.found = t.found ∧ s.k = t.k ∧ s.yields = t.yields

/-- Lift a relation on states to `Except` results: both succeed relatedly or
both fail with the same exception. -/
def exceptRel {α : Type} (R : α → α → Prop) :
    Except PyErr α → Except PyErr α → Prop
  | .ok a, .ok b => R a b
  | .error e, .error f => e = f
  | _, _ => False

/-- The signed-volume determinant of `d + 1` vertices given as a function:
rows `f i.succ - f 0`. -/
def svDet {d : ℕ} (f : Fin (d + 1) → Coord d) : ℚ :=
  (Matrix.of fun i j => f i.succ j - f 0 j).det

/-- The input list with the entries at positions `i` and `j` exchanged. -/
def swap_vertices {α : Type} (L : List α) (i j : Fin L.length) : List α :=
  List.ofFn fun k => L.get (Equiv.swap i j k)

/-- A concrete instance of the close-to-zero predicate on log-magnitudes:
true exactly on log-magnitude `0.0`, i.e. on represented magnitude `1`. -/
def iscl_exact : ℚ → Bool := fun q => q == 1

/-- Convenience constructor for 2-dimensional coordinates. -/
def pt2 (x y : ℚ) : Coord 2 := ![x, y]

/-! ### General helper lemmas -/

/-- `squared_area` never raises on a non-empty vertex list. -/
theorem squared_area_ok {d : ℕ} (v : Coord d) (rest : List (Coord d)) :
    ∃ q, squared_area (v :: rest) = .ok q := by
  cases rest with
  | nil => exact ⟨1, rfl⟩
  | cons w t => exact ⟨_, rfl⟩

/-- `signed_volume` on a non-empty list of the right cardinality. -/
theorem signed_volume_cons_ok {d : ℕ} (v0 : Coord d) (rest : List (Coord d))
    (h : rest.length = d) :
    signed_volume (v0 :: rest) =
      .ok (qsign (Matrix.of fun (i j : Fin d) =>
            rest.getD i (zeroCoord d) j - v0 j).det,
          |(Matrix.of fun (i j : Fin d) => rest.getD i (zeroCoord d) j - v0 j).det|) := by
  simp [signed_volume, h]

/-! ### C4: the driver loop guard and clustering termination -/

/-- C4 [code_bug]: the claim says the gift-wrapping driver loop "executes
only while the ridge queue is non-empty and halts once the queue empties",
and that `clustering` terminates within `⌈n/d⌉` iterations.  In the code the
guard `while _queue.not_empty` tests a `threading.Condition` object, which is
truthy even for an empty queue (first conjunct: the guard evaluated on the
empty queue is still `true`, so the loop does not halt when the queue
empties; the source would block forever in `Queue.get()`).  Moreover the
outer loop never completes a single iteration: on any non-empty dataset
`clustering` raises `IndexError` out of `qsort_partition` (second conjunct,
on a concrete 3-point 2-dimensional dataset). -/
theorem driver_loop_guard_always_true :
    queue_not_empty ([] : List (List (Coord 2))) = true ∧
      clustering iscl_exact 3
        [⟨pt2 0 0, 0⟩, ⟨pt2 1 0, 0⟩, ⟨pt2 0 1, 0⟩] = .error .indexError := by
  constructor
  · rfl
  · rfl

/-! ### C5: seed selection -/

/-- C5 [code_bug]: the claim says `qsort_partition` returns the pair
(label of the first dataset point, `d - 1` smallest coordinates of that
label).  In fact, for every non-empty dataset and every target `>= 0` — in
particular `target = d - 1` as passed by `initialize_hull` — the function
raises `IndexError` instead: the filtered coordinate list `_data` is built
from the slice `data[0:rhs]` with `rhs = len(data) - 1` and so has at most
`len(data) - 1` elements, yet the first loop iteration evaluates
`pivot = data[rhs]`.  (Targets `<= -2`, which no caller uses, fail
differently: the negative index `data[-2]` and then `data[pivot]` raise
IndexError or TypeError, see `qsort_partition`.) -/
theorem seed_selection_raises {d : ℕ} (data : List (LPoint d)) (target : ℤ)
    (hne : data ≠ []) (ht : 0 ≤ target) :
    qsort_partition data target = .error .indexError := by
  match data, hne with
  | p0 :: rest, _ =>
    have hbeq : ((-1 : ℤ) == target) = false := by
      have : (-1 : ℤ) ≠ target := by omega
      simpa using this
    have hlen : ((((p0 :: rest).take ((p0 :: rest).length - 1)).filter
        (fun e => e.label == p0.label)).map (fun e => e.coordinate)).length ≤
        rest.length := by
      calc ((((p0 :: rest).take ((p0 :: rest).length - 1)).filter
            (fun e => e.label == p0.label)).map (fun e => e.coordinate)).length
          = (((p0 :: rest).take ((p0 :: rest).length - 1)).filter
            (fun e => e.label == p0.label)).length := List.length_map _ _
        _ ≤ ((p0 :: rest).take ((p0 :: rest).length - 1)).length :=
            List.length_filter_le _ _
        _ ≤ rest.length := by simp [List.length_take]
    have hnone : ((((p0 :: rest).take ((p0 :: rest).length - 1)).filter
        (fun e => e.label == p0.label)).map (fun e => e.coordinate)).get?
        ((p0 :: rest).length - 1) = none := by
      rw [List.get?_eq_none]
      simpa using hlen
    have hlt : (-1 : ℤ) < target := by omega
    simp only [qsort_partition, hbeq, Bool.false_eq_true, if_false,
      if_pos hlt, hnone]

/-- Witness for `seed_selection_raises` at a concrete input. -/
theorem seed_selection_raises_witness :
    ([⟨pt2 0 0, 0⟩, ⟨pt2 1 0, 0⟩, ⟨pt2 0 1, 0⟩] : List (LPoint 2)) ≠ [] ∧
      (0 : ℤ) ≤ 1 ∧
      qsort_partition [⟨pt2 0 0, 0⟩, ⟨pt2 1 0, 0⟩, ⟨pt2 0 1, 0⟩] (1 : ℤ) =
        .error .indexError :=
  ⟨by simp, by decide,
    seed_selection_raises _ _ (by simp) (by decide)⟩

/-! ### C2: check_inside_hull -/

/-- C2 [code_bug]: the claim (and the docstring of `check_inside_hull`) says
the function returns true iff every facet's `check_inside(...).inside` holds,
and false as soon as one facet reports the pivot outside.  The code instead
tests `if not check_inside(...)` on the returned 3-tuple, which is always
truthy, so the function returns true unconditionally.  Concretely, for the
single-facet hull `[((0,0), (1,0))]` and pivot `(0,-1)`, `check_inside`
reports `inside = False` (second conjunct), yet `check_inside_hull` returns
`True` (first conjunct). -/
theorem hull_membership_test_constant_true :
    check_inside_hull iscl_exact [[pt2 0 0, pt2 1 0]] (pt2 0 (-1)) = .ok true ∧
      check_inside iscl_exact [pt2 0 0, pt2 1 0] (pt2 0 (-1)) none none =
        .ok (false, [pt2 0 0, pt2 0 (-1)], 0) := by
  constructor
  · simp [check_inside_hull, check_inside, pyTruthy, pyOrList, pyOrArea,
      squared_area, signed_volume, form_face, qsign, iscl_exact, pt2,
      Matrix.det_fin_two, Matrix.mul_apply, Fin.sum_univ_one, List.getD,
      zeroCoord]
    norm_num
  · simp [check_inside, pyTruthy, pyOrList, pyOrArea,
      squared_area, signed_volume, form_face, qsign, iscl_exact, pt2,
      Matrix.det_fin_two, Matrix.mul_apply, Fin.sum_univ_one, List.getD,
      zeroCoord]
    norm_num

/-! ### C1: purity of emitted clusters -/

/-- C1 [code_bug]: the claim says no input point with a label different from
the cluster's ever lies strictly inside the hull, and in particular such a
coordinate never appears in the emitted `points` list.  In the code the
emission pass of the clustering loop (see `partition_step`) relies on
`check_inside_hull`, which returns true unconditionally, so every non-vertex
point of the working dataset — whatever its label and position — is placed in
the cluster's `points`.  Concretely: peeling with the label-0 hull over
`[(0,0), (1,0)]`, the label-1 point `(5,5)` (far outside the hull) lands in
`points`.  (In a full run `clustering` raises `IndexError` out of
`qsort_partition` before ever emitting a cluster, see
`seed_selection_raises`; the partition pass shown here is the cluster
emission code the claim describes, lines 497-504.) -/
theorem purity_violated_in_partition :
    partition_step iscl_exact [[pt2 0 0, pt2 1 0]] [pt2 0 0, pt2 1 0]
        [⟨pt2 0 0, 0⟩, ⟨pt2 1 0, 0⟩, ⟨pt2 5 5, 1⟩] =
      .ok ([pt2 0 0, pt2 1 0], [pt2 5 5], [⟨pt2 5 5, 1⟩]) := by
  simp [partition_step, check_inside_hull, check_inside, pyTruthy, pyOrList,
    pyOrArea, squared_area, signed_volume, form_face, qsign, iscl_exact, pt2,
    Matrix.det_fin_two, Matrix.mul_apply, Fin.sum_univ_one, List.getD,
    zeroCoord, List.mem_cons, funext_iff, Fin.forall_fin_two,
    Matrix.cons_val_zero, Matrix.cons_val_one, Matrix.head_cons]

/-! ### C3: the clustering loop partitions the working dataset -/

/-- C3 [code_bug]: the claim says each point of the working dataset goes to
exactly one of the cluster's `vertices`, the cluster's `points`, or the next
working dataset.  In the code (see `partition_step`) a non-vertex point is
appended to the next working dataset unconditionally and additionally to
`points` when `check_inside_hull` holds (which is always, see
`hull_membership_test_constant_true`), so interior points are consumed twice
and the multiset of emitted coordinates exceeds the input multiset.
Concretely: with the label-0 hull over `[(0,0), (2,0)]` and working dataset
`[(0,0), (1,0), (2,0)]`, the point `(1,0)` is placed in `points` and kept in
the next working dataset. -/
theorem partition_duplicates_interior_points :
    partition_step iscl_exact [[pt2 0 0, pt2 2 0]] [pt2 0 0, pt2 2 0]
        [⟨pt2 0 0, 0⟩, ⟨pt2 1 0, 0⟩, ⟨pt2 2 0, 0⟩] =
      .ok ([pt2 0 0, pt2 2 0], [pt2 1 0], [⟨pt2 1 0, 0⟩]) := by
  simp [partition_step, check_inside_hull, check_inside, pyTruthy, pyOrList,
    pyOrArea, squared_area, signed_volume, form_face, qsign, iscl_exact, pt2,
    Matrix.det_fin_two, Matrix.mul_apply, Fin.sum_univ_one, List.getD,
    zeroCoord, List.mem_cons, funext_iff, Fin.forall_fin_two,
    Matrix.cons_val_zero, Matrix.cons_val_one, Matrix.head_cons]

/-! ### C8: cardinality checking in the geometry primitives -/

/-- C8 counterexample: the claim says `squared_area` raises a domain error
when called with other than `d` vertices.  It does not: in dimension 2,
called with 4 vertices (two too many) it happily returns the Gram
log-magnitude (represented magnitude `3`), because `M.T * M` is `d × d`
whatever the number of rows of `M`. -/
theorem squared_area_accepts_wrong_cardinality :
    squared_area [pt2 0 0, pt2 1 0, pt2 0 1, pt2 1 1] = .ok 3 := by
  simp [squared_area, Matrix.det_fin_two, Matrix.mul_apply,
    Fin.sum_univ_three, pt2]
  norm_num

/-- C8 [corrected]: `signed_volume` does reject every wrong non-zero vertex
count with numpy's `LinAlgError` (the matrix it builds is not square), but
`squared_area` raises no cardinality error at all — on any non-empty vertex
list it returns a value, because the Gram matrix `M.T * M` is square
regardless of the number of vertices.  (On an empty list both raise
`IndexError` at `vertices[0]`, a lookup error rather than a domain error.) -/
theorem signed_volume_rejects_wrong_cardinality {d : ℕ}
    (L : List (Coord d)) (hne : L ≠ []) (hlen : L.length ≠ d + 1) :
    signed_volume L = .error .linAlgError ∧ ∃ q, squared_area L = .ok q := by
  match L, hne with
  | v0 :: rest, _ =>
    refine ⟨?_, squared_area_ok v0 rest⟩
    have h : rest.length ≠ d := by
      intro h
      exact hlen (by simp [h])
    simp [signed_volume, h]

/-- Witness for `signed_volume_rejects_wrong_cardinality`: one vertex in
dimension 2. -/
theorem signed_volume_rejects_wrong_cardinality_witness :
    ([pt2 0 0] : List (Coord 2)) ≠ [] ∧
      ([pt2 0 0] : List (Coord 2)).length ≠ 2 + 1 ∧
      (signed_volume [pt2 0 0] = .error .linAlgError ∧
        ∃ q, squared_area [pt2 0 0] = .ok q) :=
  ⟨by simp, by decide,
    signed_volume_rejects_wrong_cardinality _ (by simp) (by decide)⟩

/-! ### C7: the decision structure of check_inside -/

/-- `squared_area` never raises on `edge ++ [pivot]`. -/
theorem squared_area_append_ok {d : ℕ} (ed : List (Coord d)) (pivot : Coord d) :
    ∃ q, squared_area (ed ++ [pivot]) = .ok q := by
  cases ed with
  | nil => exact ⟨1, rfl⟩
  | cons e t => exact squared_area_ok e (t ++ [pivot])

/-- Full input/output description of `check_inside` on a well-formed facet:
every intermediate geometric computation succeeds, the returned facet and
area are those of `edge ++ [pivot]`, and the `inside` flag is the negation
of the outside condition of the source. -/
theorem check_inside_spec (iscl : ℚ → Bool) {d : ℕ}
    (face : List (Coord d)) (pivot : Coord d)
    (edge : Option (List (Coord d))) (area : Option ℚ)
    (hface : face.length = d) (hne : face ≠ []) :
    ∃ ar s m fa,
      pyOrArea area (squared_area face) = .ok ar ∧
      signed_volume (form_face face pivot) = .ok (s, m) ∧
      squared_area (form_face (pyOrList edge face.dropLast) pivot) = .ok fa ∧
      check_inside iscl face pivot edge area =
        .ok (!((iscl m && decide (ar < fa)) || decide (s < 0)),
          form_face (pyOrList edge face.dropLast) pivot, fa) := by
  match face, hne with
  | v :: rest, _ =>
    obtain ⟨a0, ha0⟩ := squared_area_ok v rest
    have har : ∃ ar, pyOrArea area (squared_area (v :: rest)) = .ok ar := by
      cases area with
      | none => exact ⟨a0, by simpa [pyOrArea] using ha0⟩
      | some q =>
        by_cases hq : q = 1
        · exact ⟨a0, by simp [pyOrArea, hq, ha0]⟩
        · exact ⟨q, by simp [pyOrArea, hq]⟩
    obtain ⟨ar, har⟩ := har
    have hlen : (rest ++ [pivot]).length = d := by
      simp only [List.length_append, List.length_singleton]
      simpa using hface
    have hsv := signed_volume_cons_ok v (rest ++ [pivot]) hlen
    obtain ⟨fa, hfa⟩ :=
      squared_area_append_ok (pyOrList edge (v :: rest).dropLast) pivot
    refine ⟨ar,
      qsign (Matrix.of fun (i j : Fin d) =>
        (rest ++ [pivot]).getD i (zeroCoord d) j - v j).det,
      |(Matrix.of fun (i j : Fin d) =>
        (rest ++ [pivot]).getD i (zeroCoord d) j - v j).det|,
      fa, har, ?_, hfa, ?_⟩
    · simpa [form_face] using hsv
    · simp only [check_inside, har, form_face, List.cons_append] at hsv hfa ⊢
      rw [hsv, hfa]
      show (if (iscl |(Matrix.of fun (i j : Fin d) =>
            (rest ++ [pivot]).getD i (zeroCoord d) j - v j).det| &&
            decide (ar < fa) ||
            decide (qsign (Matrix.of fun (i j : Fin d) =>
              (rest ++ [pivot]).getD i (zeroCoord d) j - v j).det < 0)) = true
          then (Except.ok (false, pyOrList edge (v :: rest).dropLast ++ [pivot], fa) :
            Except PyErr (Bool × List (Coord d) × ℚ))
          else Except.ok (true, pyOrList edge (v :: rest).dropLast ++ [pivot], fa)) =
        Except.ok (!(iscl |(Matrix.of fun (i j : Fin d) =>
            (rest ++ [pivot]).getD i (zeroCoord d) j - v j).det| &&
            decide (ar < fa) ||
            decide (qsign (Matrix.of fun (i j : Fin d) =>
              (rest ++ [pivot]).getD i (zeroCoord d) j - v j).det < 0)),
          pyOrList edge (v :: rest).dropLast ++ [pivot], fa)
      generalize ((iscl |(Matrix.of fun (i j : Fin d) =>
            (rest ++ [pivot]).getD i (zeroCoord d) j - v j).det| &&
            decide (ar < fa) ||
            decide (qsign (Matrix.of fun (i j : Fin d) =>
              (rest ++ [pivot]).getD i (zeroCoord d) j - v j).det < 0)) : Bool) = b
      cases b <;> rfl

/-- C7 [confirmed]: for every facet `face` (of the `d` vertices a facet has),
pivot, optional edge and optional area, `check_inside` returns
`(inside, face', area')` with `face' = edge ++ [pivot]` and
`area' = squared_area face'`, and `inside = false` exactly when
`(isclose(logvolume, 0) ∧ area' > area) ∨ sign < 0`, where
`(sign, logvolume) = signed_volume(face ∪ \x7bpivot\x7d)`; in every other
case it returns `(true, face', area')`.  Here `edge` and `area` are the
effective values after the source's Python `or` defaulting
(`edge or face[:-1]`, `area or squared_area(face)`; note a passed float
`0.0`, i.e. magnitude `1`, also falls back to the default). -/
theorem check_inside_decision (iscl : ℚ → Bool) {d : ℕ}
    (face : List (Coord d)) (pivot : Coord d)
    (edge : Option (List (Coord d))) (area : Option ℚ)
    (hface : face.length = d) (hne : face ≠ []) :
    ∃ ar s m fa,
      pyOrArea area (squared_area face) = .ok ar ∧
      signed_volume (form_face face pivot) = .ok (s, m) ∧
      squared_area (form_face (pyOrList edge face.dropLast) pivot) = .ok fa ∧
      check_inside iscl face pivot edge area =
        .ok (!((iscl m && decide (ar < fa)) || decide (s < 0)),
          form_face (pyOrList edge face.dropLast) pivot, fa) :=
  check_inside_spec iscl face pivot edge area hface hne

/-- Witness for `check_inside_decision` at a concrete input. -/
theorem check_inside_decision_witness :
    ([pt2 0 0, pt2 1 0] : List (Coord 2)).length = 2 ∧
      ([pt2 0 0, pt2 1 0] : List (Coord 2)) ≠ [] ∧
      (∃ ar s m fa,
        pyOrArea none (squared_area [pt2 0 0, pt2 1 0]) = .ok ar ∧
        signed_volume (form_face [pt2 0 0, pt2 1 0] (pt2 0 1)) = .ok (s, m) ∧
        squared_area (form_face
          (pyOrList none ([pt2 0 0, pt2 1 0] : List (Coord 2)).dropLast)
          (pt2 0 1)) = .ok fa ∧
        check_inside iscl_exact [pt2 0 0, pt2 1 0] (pt2 0 1) none none =
          .ok (!((iscl_exact m && decide (ar < fa)) || decide (s < 0)),
            form_face
              (pyOrList none ([pt2 0 0, pt2 1 0] : List (Coord 2)).dropLast)
              (pt2 0 1), fa)) :=
  ⟨rfl, by simp,
    check_inside_decision iscl_exact [pt2 0 0, pt2 1 0] (pt2 0 1) none none
      rfl (by simp)⟩

/-! ### C6: safety of the pivot selector -/

/-- A `find?` over a list containing a satisfying element succeeds. -/
theorem find_some_of_exists {α : Type} (p : α → Bool) (l : List α)
    (h : ∃ x ∈ l, p x = true) : ∃ y, l.find? p = some y := by
  cases hf : l.find? p with
  | some y => exact ⟨y, rfl⟩
  | none =>
    rw [List.find?_eq_none] at hf
    obtain ⟨x, hx, hpx⟩ := h
    exact absurd hpx (by simpa using hf x hx)

/-- `dropWhile` of a list containing a failing element is non-empty. -/
theorem dropWhile_head_some {α : Type} (p : α → Bool) (l : List α)
    (h : ∃ x ∈ l, p x = false) : ∃ y, (l.dropWhile p).head? = some y := by
  cases hd : l.dropWhile p with
  | cons y t => exact ⟨y, rfl⟩
  | nil =>
    rw [List.dropWhile_eq_nil_iff] at hd
    obtain ⟨x, hx, hpx⟩ := h
    rw [hd x hx] at hpx
    cases hpx

/-- The facet built by `check_inside` from a `d - 1`-vertex edge (after
Python `or` defaulting) again has `d` vertices. -/
theorem form_face_pyOrList_length {d : ℕ} (edge face : List (Coord d))
    (pivot : Coord d) (hedge : edge.length + 1 = d) (hf : face.length = d) :
    (form_face (pyOrList (some edge) face.dropLast) pivot).length = d := by
  by_cases he : edge.isEmpty
  · simp only [pyOrList, he, if_true, form_face, List.length_append,
      List.length_dropLast, List.length_singleton, hf]
    simp only [List.isEmpty_iff] at he
    subst he
    simp at hedge
    omega
  · simp only [pyOrList, he, if_false, form_face, List.length_append,
      List.length_singleton]
    exact hedge

/-- One selector step succeeds and preserves the facet-size invariant,
given the outcome of its `check_inside` call. -/
theorem poe_step_ok_of (iscl : ℚ → Bool) {d : ℕ} (edge : List (Coord d))
    (label : ℤ) (vs : ℕ → Verdict) (st : POEState d) (p : LPoint d)
    (b : Bool) (cf : List (Coord d)) (ca : ℚ)
    (hok : check_inside iscl st.homo.face p.coordinate (some edge)
      (some st.homo.area) = .ok (b, cf, ca))
    (hcf : cf.length = d) (hf : st.homo.face.length = d) :
    ∃ st', poe_step iscl edge label vs st p = .ok st' ∧
      st'.homo.face.length = d := by
  cases hu : (if p.label == label then !b else b) with
  | false =>
    refine ⟨st, ?_, hf⟩
    simp only [poe_step, hok, hu, Bool.false_eq_true, if_false]
  | true =>
    cases hv : vs st.k with
    | homogeneous =>
      refine ⟨⟨⟨p.coordinate, cf, ca⟩, st.opp, true, st.k + 1,
        st.yields ++ [p.coordinate]⟩, ?_, hcf⟩
      simp only [poe_step, hok, hu, if_true, hv]
    | hetrogeneous =>
      refine ⟨⟨st.homo, st.opp, st.found, st.k + 1,
        st.yields ++ [p.coordinate]⟩, ?_, hf⟩
      simp only [poe_step, hok, hu, if_true, hv]
    | oppositeInside =>
      refine ⟨⟨st.homo, ⟨p.coordinate, cf, ca⟩, st.found, st.k + 1,
        st.yields ++ [p.coordinate]⟩, ?_, hf⟩
      simp only [poe_step, hok, hu, if_true, hv]
    | oppositeOutside =>
      refine ⟨⟨st.homo, st.opp, st.found, st.k + 1,
        st.yields ++ [p.coordinate]⟩, ?_, hf⟩
      simp only [poe_step, hok, hu, if_true, hv]

/-- The selector scan over any dataset succeeds, given the facet-size
invariant on the incumbent. -/
theorem poe_loop_ok (iscl : ℚ → Bool) {d : ℕ} (edge : List (Coord d))
    (label : ℤ) (vs : ℕ → Verdict) (hedge : edge.length + 1 = d)
    (pts : List (LPoint d)) :
    ∀ st : POEState d, st.homo.face.length = d →
      ∃ st', poe_loop iscl edge label vs pts st = .ok st' := by
  induction pts with
  | nil => exact fun st _ => ⟨st, rfl⟩
  | cons p rest ih =>
    intro st hf
    have hne : st.homo.face ≠ [] := by
      intro h
      rw [h] at hf
      simp only [List.length_nil] at hf
      omega
    obtain ⟨ar, sg, m, fa, -, -, -, hci⟩ :=
      check_inside_spec iscl st.homo.face p.coordinate (some edge)
        (some st.homo.area) hf hne
    have hcf := form_face_pyOrList_length edge st.homo.face p.coordinate
      hedge hf
    obtain ⟨st', hstep, hf'⟩ :=
      poe_step_ok_of iscl edge label vs st p _ _ _ hci hcf hf
    obtain ⟨st'', hl⟩ := ih st' hf'
    exact ⟨st'', by simp only [poe_loop, hstep, hl]⟩

/-- C6 counterexample: the claim says the selector scans the dataset without
any out-of-range index access even when the dataset contains no point of a
different label.  On the one-point dataset `[((0,0), label 0)]` (no point of
a different label) the second scanning loop runs off the end and
`dataset[index]` raises `IndexError`. -/
theorem pivot_on_edge_oob_without_opposite :
    pivot_on_edge iscl_exact [⟨pt2 0 0, 0⟩] [pt2 1 1] 0
      (fun _ => Verdict.hetrogeneous) = .error .indexError := by
  simp [pivot_on_edge, ofOpt, squared_area, form_face, Matrix.det_fin_two,
    Matrix.mul_apply, Fin.sum_univ_one, pt2, List.find?, List.dropWhile]

/-- C6 [corrected]: if the dataset contains a point with the given label
(required by the claim) and also a point with a different label at or after
the first point with the given label (the amendment: otherwise the second
scanning loop falls off the end, see `pivot_on_edge_oob_without_opposite`),
and the edge has the `d - 1` vertices of a ridge, then the selector runs to
completion with no out-of-range access and finally yields the
`(best homogeneous pivot, found flag)` pair. -/
theorem pivot_on_edge_total (iscl : ℚ → Bool) {d : ℕ}
    (dataset : List (LPoint d)) (edge : List (Coord d)) (label : ℤ)
    (vs : ℕ → Verdict) (hedge : edge.length + 1 = d)
    (h1 : ∃ p ∈ dataset, p.label = label)
    (h2 : ∃ q ∈ dataset.dropWhile (fun p => !(p.label == label)),
      q.label ≠ label) :
    ∃ ys pv fd, pivot_on_edge iscl dataset edge label vs = .ok (ys, pv, fd) := by
  obtain ⟨hp, hfind⟩ := find_some_of_exists (fun p => p.label == label) dataset
    (by
      obtain ⟨p, hpmem, hpl⟩ := h1
      exact ⟨p, hpmem, by simp [hpl]⟩)
  obtain ⟨a1, hsq1⟩ := squared_area_append_ok edge hp.coordinate
  obtain ⟨op, hhead⟩ := dropWhile_head_some (fun p => p.label == label)
    (dataset.dropWhile fun p => !(p.label == label))
    (by
      obtain ⟨q, hqmem, hql⟩ := h2
      exact ⟨q, hqmem, by simp [hql]⟩)
  obtain ⟨a2, hsq2⟩ := squared_area_append_ok edge op.coordinate
  have hstlen : ((⟨⟨hp.coordinate, edge ++ [hp.coordinate], a1⟩,
      ⟨op.coordinate, edge ++ [op.coordinate], a2⟩,
      vs 0 == Verdict.homogeneous, 1, [hp.coordinate]⟩ :
      POEState d)).homo.face.length = d := by
    simpa using hedge
  obtain ⟨stF, hloop⟩ := poe_loop_ok iscl edge label vs hedge dataset _ hstlen
  refine ⟨stF.yields, stF.homo.pivot, stF.found, ?_⟩
  simp only [pivot_on_edge, hfind, ofOpt, form_face, hsq1, hhead, hsq2, hloop]

/-- Witness for `pivot_on_edge_total` at a concrete input. -/
theorem pivot_on_edge_total_witness :
    (([pt2 0 1] : List (Coord 2)).length + 1 = 2 ∧
      (∃ p ∈ ([⟨pt2 0 0, 0⟩, ⟨pt2 2 0, 1⟩] : List (LPoint 2)), p.label = 0) ∧
      (∃ q ∈ ([⟨pt2 0 0, 0⟩, ⟨pt2 2 0, 1⟩] : List (LPoint 2)).dropWhile
        (fun p => !(p.label == 0)), q.label ≠ 0)) ∧
      ∃ ys pv fd,
        pivot_on_edge iscl_exact [⟨pt2 0 0, 0⟩, ⟨pt2 2 0, 1⟩] [pt2 0 1] 0
          (fun _ => Verdict.homogeneous) = .ok (ys, pv, fd) :=
  ⟨⟨rfl, ⟨⟨pt2 0 0, 0⟩, by simp, rfl⟩,
      ⟨⟨pt2 2 0, 1⟩, by simp [List.dropWhile], by decide⟩⟩,
    pivot_on_edge_total iscl_exact _ _ 0 _ rfl
      ⟨⟨pt2 0 0, 0⟩, by simp, rfl⟩
      ⟨⟨pt2 2 0, 1⟩, by simp [List.dropWhile], by decide⟩⟩

/-! ### C10: the opposite-label incumbent never influences the output -/

/-- Equivalent verdicts agree on the only test the `found`/`homo` update
performs. -/
theorem verdict_equiv_homogeneous {v w : Verdict} (h : verdict_equiv v w) :
    (v == Verdict.homogeneous) = (w == Verdict.homogeneous) := by
  rcases h with heq | ⟨ha, hb⟩ | ⟨ha, hb⟩
  · rw [heq]
  · rw [ha, hb]
    decide
  · rw [ha, hb]
    decide

/-- One selector step, driven by verdict streams that agree up to the
opposite-inside/opposite-outside exchange, preserves observational equality
of states. -/
theorem poe_step_obs (iscl : ℚ → Bool) {d : ℕ} (edge : List (Coord d))
    (label : ℤ) (vs₁ vs₂ : ℕ → Verdict)
    (hvs : ∀ n, verdict_equiv (vs₁ n) (vs₂ n))
    (s t : POEState d) (hst : obsEq s t) (p : LPoint d) :
    exceptRel obsEq (poe_step iscl edge label vs₁ s p)
      (poe_step iscl edge label vs₂ t p) := by
  obtain ⟨hhomo, hfound, hk, hyields⟩ := hst
  cases hci : check_inside iscl s.homo.face p.coordinate (some edge)
      (some s.homo.area) with
  | error e =>
    have hci' : check_inside iscl t.homo.face p.coordinate (some edge)
        (some t.homo.area) = .error e := by rw [← hhomo]; exact hci
    simp only [poe_step, hci, hci', exceptRel]
  | ok r =>
    obtain ⟨b, cf, ca⟩ := r
    have hci' : check_inside iscl t.homo.face p.coordinate (some edge)
        (some t.homo.area) = .ok (b, cf, ca) := by rw [← hhomo]; exact hci
    simp only [poe_step, hci, hci', ← hk]
    cases hu : (if p.label == label then !b else b) with
    | false =>
      simp only [hu, Bool.false_eq_true, if_false, exceptRel]
      exact ⟨hhomo, hfound, hk, hyields⟩
    | true =>
      simp only [hu, if_true]
      rcases hvs s.k with heq | ⟨ha, hb⟩ | ⟨ha, hb⟩
      · rw [← heq]
        cases vs₁ s.k <;> simp [exceptRel, obsEq, hhomo, hfound, hk, hyields]
      · rw [ha, hb]
        simp [exceptRel, obsEq, hhomo, hfound, hk, hyields]
      · rw [ha, hb]
        simp [exceptRel, obsEq, hhomo, hfound, hk, hyields]

/-- The whole selector scan preserves observational equality. -/
theorem poe_loop_obs (iscl : ℚ → Bool) {d : ℕ} (edge : List (Coord d))
    (label : ℤ) (vs₁ vs₂ : ℕ → Verdict)
    (hvs : ∀ n, verdict_equiv (vs₁ n) (vs₂ n)) (pts : List (LPoint d)) :
    ∀ s t : POEState d, obsEq s t →
      exceptRel obsEq (poe_loop iscl edge label vs₁ pts s)
        (poe_loop iscl edge label vs₂ pts t) := by
  induction pts with
  | nil =>
    intro s t hst
    simpa [poe_loop, exceptRel] using hst
  | cons p rest ih =>
    intro s t hst
    have hstep := poe_step_obs iscl edge label vs₁ vs₂ hvs s t hst p
    cases h1 : poe_step iscl edge label vs₁ s p with
    | error e =>
      cases h2 : poe_step iscl edge label vs₂ t p with
      | error f =>
        rw [h1, h2] at hstep
        simp only [exceptRel] at hstep
        simp only [poe_loop, h1, h2, exceptRel, hstep]
      | ok t' =>
        rw [h1, h2] at hstep
        exact absurd hstep (by simp [exceptRel])
    | ok s' =>
      cases h2 : poe_step iscl edge label vs₂ t p with
      | error f =>
        rw [h1, h2] at hstep
        exact absurd hstep (by simp [exceptRel])
      | ok t' =>
        rw [h1, h2] at hstep
        simp only [exceptRel] at hstep
        simp only [poe_loop, h1, h2]
        exact ih s' t' hstep

/-- C10 [confirmed]: two runs of `pivot_on_edge` on the same dataset, edge
and label, driven by verdict streams that differ at most by exchanging
`'opposite inside'` and `'opposite outside'` replies, produce identical
outputs: the same yielded candidate sequence and the same final
`(pivot, found)` pair (and identical exceptions, if any).  The `opp`
incumbent is updated by those verdicts but is never part of the output. -/
theorem pivot_on_edge_opp_noninterference (iscl : ℚ → Bool) {d : ℕ}
    (dataset : List (LPoint d)) (edge : List (Coord d)) (label : ℤ)
    (vs₁ vs₂ : ℕ → Verdict) (hvs : ∀ n, verdict_equiv (vs₁ n) (vs₂ n)) :
    pivot_on_edge iscl dataset edge label vs₁ =
      pivot_on_edge iscl dataset edge label vs₂ := by
  have hfound := verdict_equiv_homogeneous (hvs 0)
  simp only [pivot_on_edge]
  cases hf : dataset.find? (fun p => p.label == label) with
  | none => simp only [hf, ofOpt]
  | some hp =>
    simp only [hf, ofOpt]
    cases hsq1 : squared_area (form_face edge hp.coordinate) with
    | error e => simp only [hsq1]
    | ok a1 =>
      simp only [hsq1]
      cases hhd : (((dataset.dropWhile fun p => !(p.label == label)).dropWhile
          fun p => p.label == label).head?) with
      | none => simp only [hhd, ofOpt]
      | some op =>
        simp only [hhd, ofOpt]
        cases hsq2 : squared_area (form_face edge op.coordinate) with
        | error e => simp only [hsq2]
        | ok a2 =>
          simp only [hsq2, hfound]
          have hobs := poe_loop_obs iscl edge label vs₁ vs₂ hvs dataset
            ⟨⟨hp.coordinate, form_face edge hp.coordinate, a1⟩,
             ⟨op.coordinate, form_face edge op.coordinate, a2⟩,
             vs₂ 0 == Verdict.homogeneous, 1, [hp.coordinate]⟩
            ⟨⟨hp.coordinate, form_face edge hp.coordinate, a1⟩,
             ⟨op.coordinate, form_face edge op.coordinate, a2⟩,
             vs₂ 0 == Verdict.homogeneous, 1, [hp.coordinate]⟩
            ⟨rfl, rfl, rfl, rfl⟩
          cases hl1 : poe_loop iscl edge label vs₁ dataset
              ⟨⟨hp.coordinate, form_face edge hp.coordinate, a1⟩,
               ⟨op.coordinate, form_face edge op.coordinate, a2⟩,
               vs₂ 0 == Verdict.homogeneous, 1, [hp.coordinate]⟩ with
          | error e =>
            cases hl2 : poe_loop iscl edge label vs₂ dataset
                ⟨⟨hp.coordinate, form_face edge hp.coordinate, a1⟩,
                 ⟨op.coordinate, form_face edge op.coordinate, a2⟩,
                 vs₂ 0 == Verdict.homogeneous, 1, [hp.coordinate]⟩ with
            | error f =>
              rw [hl1, hl2] at hobs
              simp only [exceptRel] at hobs
              simp only [hl1, hl2, hobs]
            | ok t' =>
              rw [hl1, hl2] at hobs
              exact absurd hobs (by simp [exceptRel])
          | ok s' =>
            cases hl2 : poe_loop iscl edge label vs₂ dataset
                ⟨⟨hp.coordinate, form_face edge hp.coordinate, a1⟩,
                 ⟨op.coordinate, form_face edge op.coordinate, a2⟩,
                 vs₂ 0 == Verdict.homogeneous, 1, [hp.coordinate]⟩ with
            | error f =>
              rw [hl1, hl2] at hobs
              exact absurd hobs (by simp [exceptRel])
            | ok t' =>
              rw [hl1, hl2] at hobs
              simp only [exceptRel, obsEq] at hobs
              obtain ⟨hh, hfd, -, hy⟩ := hobs
              simp only [hl1, hl2, hh, hfd, hy]

/-- Witness for `pivot_on_edge_opp_noninterference`: the all-opposite-inside
stream against the all-opposite-outside stream on a concrete dataset. -/
theorem pivot_on_edge_opp_noninterference_witness :
    pivot_on_edge iscl_exact [⟨pt2 0 0, 0⟩, ⟨pt2 2 0, 1⟩] [pt2 0 1] 0
        (fun _ => Verdict.oppositeInside) =
      pivot_on_edge iscl_exact [⟨pt2 0 0, 0⟩, ⟨pt2 2 0, 1⟩] [pt2 0 1] 0
        (fun _ => Verdict.oppositeOutside) :=
  pivot_on_edge_opp_noninterference iscl_exact _ _ 0 _ _
    (fun _ => Or.inr (Or.inl ⟨rfl, rfl⟩))

/-! ### C9: the orientation law of signed_volume -/

/-- `qsign` is odd. -/
theorem qsign_neg (q : ℚ) : qsign (-q) = -qsign q := by
  simp only [qsign]
  rcases lt_trichotomy q 0 with h | rfl | h
  · rw [if_pos (neg_pos.mpr h), if_neg (lt_asymm h), if_pos h]
    norm_num
  · norm_num
  · rw [if_neg (lt_asymm (neg_lt_zero.mpr h)), if_pos (neg_lt_zero.mpr h),
      if_pos h]

/-- `signed_volume` on a function-presented vertex list computes the
`svDet` determinant. -/
theorem svDet_ofFn {d : ℕ} (f : Fin (d + 1) → Coord d) :
    signed_volume (List.ofFn f) = .ok (qsign (svDet f), |svDet f|) := by
  rw [List.ofFn_succ]
  have hlen : (List.ofFn fun i : Fin d => f i.succ).length = d := by simp
  rw [signed_volume_cons_ok _ _ hlen]
  have hM : (Matrix.of fun (i j : Fin d) =>
      (List.ofFn fun i : Fin d => f i.succ).getD i (zeroCoord d) j - f 0 j) =
      Matrix.of fun (i j : Fin d) => f i.succ j - f 0 j := by
    funext i jj
    have hi : (i : ℕ) < (List.ofFn fun i : Fin d => f i.succ).length := by
      simp [i.isLt]
    rw [Matrix.of_apply, Matrix.of_apply, List.getD_eq_get _ _ hi,
      List.get_ofFn]
    have hcast : (Fin.cast (List.length_ofFn fun i : Fin d => f i.succ)
        ⟨(i : ℕ), hi⟩) = i := by
      apply Fin.ext
      simp
    rw [hcast]
  rw [hM]
  rfl

/-- `Fin.cast` commutes with `Equiv.swap`. -/
theorem swap_cast {n m : ℕ} (h : n = m) (i j k : Fin n) :
    Equiv.swap (Fin.cast h i) (Fin.cast h j) (Fin.cast h k) =
      Fin.cast h (Equiv.swap i j k) := by
  subst h
  simp [Fin.cast_refl]

/-- `Equiv.swap` commutes with `Fin.succ` on successor indices. -/
theorem swap_succ {n : ℕ} (s t i : Fin n) :
    Equiv.swap s.succ t.succ i.succ = (Equiv.swap s t i).succ := by
  rcases eq_or_ne i s with rfl | his
  · simp [Equiv.swap_apply_left]
  rcases eq_or_ne i t with rfl | hit
  · simp [Equiv.swap_apply_right]
  · rw [Equiv.swap_apply_of_ne_of_ne (fun h => his (Fin.succ_inj.mp h))
      (fun h => hit (Fin.succ_inj.mp h)),
      Equiv.swap_apply_of_ne_of_ne his hit]

/-- Exchanging the reference vertex `0` with vertex `t.succ` negates the
signed-volume determinant (row operations: the new rows are the old ones
minus row `t`, with row `t` itself negated). -/
theorem svDet_swap_zero_succ {d : ℕ} (f : Fin (d + 1) → Coord d)
    (t : Fin d) :
    svDet (fun k => f (Equiv.swap 0 t.succ k)) = -svDet f := by
  classical
  set M : Matrix (Fin d) (Fin d) ℚ :=
    Matrix.of fun i j => f i.succ j - f 0 j with hMdef
  have hB : svDet (fun k => f (Equiv.swap 0 t.succ k)) =
      (M.updateRow t (-(M t))).det := by
    apply Matrix.det_eq_of_forall_row_eq_smul_add_const
      (fun i => if i = t then 0 else 1) t (if_pos rfl)
    intro i j
    by_cases hit : i = t
    · subst hit
      simp only [Matrix.of_apply, Matrix.updateRow_self, Pi.neg_apply,
        hMdef, Equiv.swap_apply_right, Equiv.swap_apply_left, if_pos rfl,
        eq_self_iff_true, if_true]
      ring
    · simp only [Matrix.of_apply, Matrix.updateRow_ne hit,
        Matrix.updateRow_self, if_neg hit, Pi.neg_apply, hMdef,
        Equiv.swap_apply_left]
      rw [Equiv.swap_apply_of_ne_of_ne (Fin.succ_ne_zero i)
        (fun h => hit (Fin.succ_inj.mp h))]
      ring
  rw [hB]
  have : -(M t) = (-1 : ℚ) • M t := by simp
  rw [this, Matrix.det_updateRow_smul, Matrix.updateRow_eq_self]
  simp [svDet, hMdef]

/-- Exchanging any two vertices negates the signed-volume determinant. -/
theorem svDet_swap {d : ℕ} (f : Fin (d + 1) → Coord d) (a b : Fin (d + 1))
    (hab : a ≠ b) :
    svDet (fun k => f (Equiv.swap a b k)) = -svDet f := by
  classical
  rcases Fin.eq_zero_or_eq_succ a with rfl | ⟨s, rfl⟩
  · rcases Fin.eq_zero_or_eq_succ b with rfl | ⟨t, rfl⟩
    · exact absurd rfl hab
    · exact svDet_swap_zero_succ f t
  · rcases Fin.eq_zero_or_eq_succ b with rfl | ⟨t, rfl⟩
    · have : ∀ k, Equiv.swap s.succ 0 k = Equiv.swap 0 s.succ k := by
        intro k
        rw [Equiv.swap_comm]
      simp only [this]
      exact svDet_swap_zero_succ f s
    · have hst : s ≠ t := fun h => hab (by rw [h])
      have hM : (Matrix.of fun (i j : Fin d) =>
          f (Equiv.swap s.succ t.succ i.succ) j -
            f (Equiv.swap s.succ t.succ 0) j) =
          (Matrix.of fun (i j : Fin d) =>
            f i.succ j - f 0 j).submatrix (Equiv.swap s t) id := by
        funext i j
        rw [Matrix.of_apply, Matrix.submatrix_apply, Matrix.of_apply,
          swap_succ,
          Equiv.swap_apply_of_ne_of_ne (Fin.succ_ne_zero s).symm
            (Fin.succ_ne_zero t).symm]
        rfl
      have : svDet (fun k => f (Equiv.swap s.succ t.succ k)) =
          ((Matrix.of fun (i j : Fin d) =>
            f i.succ j - f 0 j).submatrix (Equiv.swap s t) id).det := by
        rw [svDet, hM]
      rw [this, Matrix.det_permute, Equiv.Perm.sign_swap hst]
      simp [svDet]

/-- Presenting a list of known length as `List.ofFn` of its entries. -/
theorem ofFn_get_cast {α : Type} (L : List α) {n : ℕ} (h : L.length = n) :
    List.ofFn (fun k : Fin n => L.get (Fin.cast h.symm k)) = L := by
  subst h
  simp only [Fin.cast_refl]
  exact List.ofFn_get L

/-- `swap_vertices` as a `List.ofFn` over `Fin (d + 1)`. -/
theorem swap_vertices_ofFn {d : ℕ} (L : List (Coord d))
    (hL : L.length = d + 1) (i j : Fin L.length) :
    swap_vertices L i j = List.ofFn (fun k : Fin (d + 1) =>
      L.get (Fin.cast hL.symm
        (Equiv.swap (Fin.cast hL i) (Fin.cast hL j) k))) := by
  apply List.ext_get
  · simp [swap_vertices, hL]
  · intro n h1 h2
    simp only [swap_vertices] at h1 ⊢
    rw [List.get_ofFn, List.get_ofFn]
    congr 1
    have hY : (Fin.cast (List.length_ofFn _) ⟨n, h2⟩ : Fin (d + 1)) =
        Fin.cast hL (Fin.cast (List.length_ofFn _) ⟨n, h1⟩) := by
      apply Fin.ext
      simp
    rw [hY, swap_cast hL]
    apply Fin.ext
    simp

/-- C9 [confirmed]: for every list of `d + 1` vertices in dimension `d` and
every pair of distinct positions, `signed_volume` applied to the list with
the two vertices exchanged returns the negated sign and the same
log-magnitude as `signed_volume` applied to the original list. -/
theorem signed_volume_swap {d : ℕ} (L : List (Coord d))
    (hL : L.length = d + 1) (i j : Fin L.length) (hij : i ≠ j) :
    ∃ s m, signed_volume L = .ok (s, m) ∧
      signed_volume (swap_vertices L i j) = .ok (-s, m) := by
  have hij' : Fin.cast hL i ≠ Fin.cast hL j := by
    intro h
    exact hij (by apply Fin.ext; simpa [Fin.coe_cast] using congrArg Fin.val h)
  refine ⟨qsign (svDet fun k : Fin (d + 1) => L.get (Fin.cast hL.symm k)),
    |svDet fun k : Fin (d + 1) => L.get (Fin.cast hL.symm k)|, ?_, ?_⟩
  · conv_lhs => rw [← ofFn_get_cast L hL]
    exact svDet_ofFn _
  · rw [swap_vertices_ofFn L hL i j, svDet_ofFn]
    have hsw := svDet_swap (fun k' : Fin (d + 1) => L.get (Fin.cast hL.symm k'))
      (Fin.cast hL i) (Fin.cast hL j) hij'
    rw [hsw, qsign_neg, abs_neg]

/-- Witness for `signed_volume_swap` at a concrete input. -/
theorem signed_volume_swap_witness :
    (([pt2 0 0, pt2 1 0, pt2 0 1] : List (Coord 2)).length = 2 + 1 ∧
      (⟨0, by simp⟩ : Fin ([pt2 0 0, pt2 1 0, pt2 0 1] :
        List (Coord 2)).length) ≠ ⟨1, by simp⟩) ∧
      ∃ s m,
        signed_volume ([pt2 0 0, pt2 1 0, pt2 0 1] : List (Coord 2)) =
          .ok (s, m) ∧
        signed_volume (swap_vertices [pt2 0 0, pt2 1 0, pt2 0 1]
          ⟨0, by simp⟩ ⟨1, by simp⟩) = .ok (-s, m) :=
  ⟨⟨rfl, by simp⟩,
    signed_volume_swap [pt2 0 0, pt2 1 0, pt2 0 1] rfl ⟨0, by simp⟩
      ⟨1, by simp⟩ (by simp)⟩

end ConvexHullCluster
